import Mathlib

/-!
# getgit: download a file or a directory tree from a GitHub browser URL

A shallow embedding of `main.go` (package `main`): `parseGitHubURL`,
`downloadFile`, `downloadFolder` and `main`, together with the properties of
the program that its specification states.

Go strings are embedded as `String`; every string primitive is defined by
structural recursion on the character list, so that the definitions evaluate.
The Go standard-library calls the program makes (`strings`, `path/filepath`
on a Unix target, `net/url`) are given as definitions of their own in
namespaces that carry the Go package names.  The operating system and the
network are external: their answers are read from an environment `Env`, and
every call the program makes to them is recorded in the program state.
-/

namespace GetGit

/-! ## Package `strings` -/

/-- Pieces of a character list cut at every occurrence of `sep`.  The result is
never empty: a list without separator gives one piece, the list itself. -/
def splitChars (sep : Char) : List Char → List (List Char)
  | [] => [[]]
  | c :: cs =>
    if c = sep then [] :: splitChars sep cs
    else
      match splitChars sep cs with
      | [] => [[c]]
      | seg :: segs => (c :: seg) :: segs

/-- Pieces glued together again with `sep` between neighbours. -/
def joinChars (sep : Char) : List (List Char) → List Char
  | [] => []
  | [seg] => seg
  | seg :: rest => seg ++ sep :: joinChars sep rest

/-- Go `strings.Split(s, "/")`: the substrings of `s` between slashes. -/
def strings.Split (s : String) : List String :=
  (splitChars '/' s.data).map String.mk

/-- Go `strings.Join(elems, "/")`. -/
def strings.Join (elems : List String) : String :=
  String.mk (joinChars '/' (elems.map String.data))

/-- Go `strings.HasPrefix` on character lists. -/
def startsWith : List Char → List Char → Bool
  | _, [] => true
  | [], _ :: _ => false
  | c :: cs, p :: ps => c == p && startsWith cs ps

/-- Go `strings.Cut(s, sep)` for a one-character separator: the part before the
first `sep` and the part after it, or `none` for the second when `sep` does
not occur. -/
def cutChars (sep : Char) : List Char → List Char × Option (List Char)
  | [] => ([], none)
  | c :: cs =>
    if c = sep then ([], some cs)
    else ((cutChars sep cs).1.cons c, (cutChars sep cs).2)

/-! ## Package `path/filepath` (Unix: the separator is the slash) -/

/-- Element stack of `filepath.Clean`: empty and `.` elements are dropped, a
`..` removes the element before it, is dropped at the root of a rooted path
and is kept at the start of a relative one.  `stack` is in reverse order. -/
def cleanStack (rooted : Bool) : List (List Char) → List (List Char) → List (List Char)
  | stack, [] => stack.reverse
  | stack, c :: cs =>
    if c = [] ∨ c = ['.'] then cleanStack rooted stack cs
    else if c = ['.', '.'] then
      match stack with
      | [] => if rooted then cleanStack rooted [] cs else cleanStack rooted [c] cs
      | top :: below =>
        if top = ['.', '.'] then cleanStack rooted (c :: stack) cs
        else cleanStack rooted below cs
    else cleanStack rooted (c :: stack) cs

/-- Go `filepath.Clean` on character lists. -/
def cleanChars (path : List Char) : List Char :=
  let rooted := startsWith path ['/']
  let body := joinChars '/' (cleanStack rooted [] (splitChars '/' path))
  let out := if rooted then '/' :: body else body
  if out = [] then ['.'] else out

/-- Go `filepath.Clean(path)`. -/
def filepath.Clean (path : String) : String :=
  String.mk (cleanChars path.data)

/-- Go `filepath.Join(elem...)`: the elements from the first non-empty one
on, joined with slashes and cleaned; the empty string when all are empty. -/
def filepath.Join : List String → String
  | [] => ""
  | e :: rest => if e = "" then filepath.Join rest else filepath.Clean (strings.Join (e :: rest))

/-- Go `filepath.Base(path)`: `"."` for the empty path; otherwise trailing
slashes are removed and what follows the last remaining slash is returned, or
`"/"` when nothing remains. -/
def filepath.Base (path : String) : String :=
  if path = "" then "."
  else
    let stripped := path.data.reverse.dropWhile (fun c => c == '/')
    let last := (stripped.takeWhile (fun c => c != '/')).reverse
    if last = [] then "/" else String.mk last

/-- Go `filepath.Dir(path)`: the path up to and including its last slash,
cleaned. -/
def filepath.Dir (path : String) : String :=
  String.mk (cleanChars (path.data.reverse.dropWhile (fun c => c != '/')).reverse)

/-! ## Package `net/url` -/

/-- The one field of Go `url.URL` that the program reads. -/
structure URL where
  Path : String
deriving DecidableEq, Repr

/-- ASCII control character, as `stringContainsCTLByte` tests it. -/
def isCTL (c : Char) : Bool :=
  c.toNat < 32 || c.toNat == 127

/-- ASCII letter. -/
def isLetter (c : Char) : Bool :=
  (97 ≤ c.toNat && c.toNat ≤ 122) || (65 ≤ c.toNat && c.toNat ≤ 90)

/-- ASCII decimal digit. -/
def isDigit (c : Char) : Bool :=
  48 ≤ c.toNat && c.toNat ≤ 57

/-- Value of a hexadecimal digit. -/
def hexVal (c : Char) : Option Nat :=
  if isDigit c then some (c.toNat - 48)
  else if 97 ≤ c.toNat && c.toNat ≤ 102 then some (c.toNat - 87)
  else if 65 ≤ c.toNat && c.toNat ≤ 70 then some (c.toNat - 55)
  else none

/-- Go `getScheme`: a leading `scheme:` is split off; `seen` holds the
characters read so far, in reverse, and `raw` the whole input. -/
def getScheme (raw : List Char) : List Char → List Char → Except String (List Char × List Char)
  | _, [] => .ok ([], raw)
  | seen, c :: cs =>
    if isLetter c then getScheme raw (c :: seen) cs
    else if isDigit c || c == '+' || c == '-' || c == '.' then
      if seen = [] then .ok ([], raw) else getScheme raw (c :: seen) cs
    else if c == ':' then
      if seen = [] then .error "missing protocol scheme" else .ok (seen.reverse, cs)
    else .ok ([], raw)

/-- Go `unescape` in path mode, with `fuel` at least the length of the input:
a percent sign must be followed by two hexadecimal digits, which it replaces by
the character they encode.  Escapes of bytes above 127 (parts of a multi-byte
character) are outside the model and reported as an error. -/
def unescapeChars : Nat → List Char → Except String (List Char)
  | 0, _ => .ok []
  | _ + 1, [] => .ok []
  | fuel + 1, c :: cs =>
    if c = '%' then
      match cs with
      | a :: b :: rest =>
        match hexVal a, hexVal b with
        | some x, some y =>
          if 16 * x + y < 128 then
            match unescapeChars fuel rest with
            | .ok out => .ok (Char.ofNat (16 * x + y) :: out)
            | .error e => .error e
          else .error "model: escaped byte above 127"
        | _, _ => .error "invalid URL escape"
      | _ => .error "invalid URL escape"
    else
      match unescapeChars fuel cs with
      | .ok out => .ok (c :: out)
      | .error e => .error e

/-- Authorities the model covers: a host of unreserved characters, with an
optional port of decimal digits, and no user information. -/
def plainAuthority (authority : List Char) : Bool :=
  let hostPort := cutChars ':' authority
  hostPort.1.all (fun c => isLetter c || isDigit c || c == '-' || c == '_' || c == '.' || c == '~')
    && (hostPort.2.getD []).all isDigit

/-- Go `url.Parse(rawURL)`, restricted to the `Path` it yields.  The steps are
those of the library: the fragment is cut off at the first `#`; control
characters are refused; `*` is a path of its own; the scheme is split off; the
query is cut off at the first `?`; a rootless remainder after a scheme is
opaque (empty path) and without a scheme must not have a colon in its first
segment; after `//` the authority runs to the next slash; what remains is
unescaped into `Path`; last the fragment is unescaped.
The model covers authorities accepted by `plainAuthority` and escapes of ASCII
characters; on any other input it reports an error of its own, where the
library may accept the input.  Error texts are the library's inner messages. -/
def url.Parse (rawURL : String) : Except String URL :=
  let uFrag := cutChars '#' rawURL.data
  let u := uFrag.1
  let frag := uFrag.2.getD []
  let parsed : Except String (List Char) :=
    if u.any isCTL then .error "net/url: invalid control character in URL"
    else if u = ['*'] then .ok ['*']
    else
      match getScheme u [] u with
      | .error e => .error e
      | .ok (scheme, afterScheme) =>
        let rest := (cutChars '?' afterScheme).1
        if !startsWith rest ['/'] && scheme ≠ [] then .ok []
        else if !startsWith rest ['/'] && (cutChars '/' rest).1.contains ':' then
          .error "first path segment in URL cannot contain colon"
        else if (scheme ≠ [] || !startsWith rest ['/', '/', '/']) && startsWith rest ['/', '/'] then
          let authority := (cutChars '/' (rest.drop 2)).1
          let path := (rest.drop 2).drop authority.length
          if plainAuthority authority then unescapeChars path.length path
          else .error "model: authority outside the covered forms"
        else unescapeChars rest.length rest
  match parsed with
  | .error e => .error e
  | .ok path =>
    match unescapeChars frag.length frag with
    | .error e => .error e
    | .ok _ => .ok { Path := String.mk path }

/-! ## `parseGitHubURL` -/

/-- The named results of `parseGitHubURL`; `err = none` is Go's `nil`. -/
structure ParseResult where
  owner : String
  repo : String
  branch : String
  path : String
  isFile : Bool
  folderName : String
  err : Option String
deriving DecidableEq, Repr

/-- The zero values the named results hold on entry. -/
def ParseResult.zero : ParseResult :=
  { owner := "", repo := "", branch := "", path := "", isFile := false, folderName := "",
    err := none }

/-- Source `parseGitHubURL` (main.go, lines 110-152).  `urlParse` stands for
`url.Parse`, of which only the `Path` of the result is read.  A bare `return`
hands back the named results as assigned so far.  `segments[i]` is read with
`getD` below a length test that keeps the index in range. -/
def parseGitHubURL (urlParse : String → Except String URL) (githubURL : String) : ParseResult :=
  match urlParse githubURL with
  | .error e => { ParseResult.zero with err := some e }
  | .ok parsedURL =>
    let segments := strings.Split parsedURL.Path
    if segments.length < 4 then
      { ParseResult.zero with err := some "Ungültige GitHub-URL" }
    else
      let owner := segments.getD 1 ""
      let repo := segments.getD 2 ""
      if segments.getD 3 "" = "blob" then
        if segments.length < 5 then
          { ParseResult.zero with
            owner := owner, repo := repo, isFile := true, err := some "Ungültige GitHub-Datei-URL" }
        else
          let branch := segments.getD 4 ""
          let path := strings.Join (segments.drop 5)
          { owner := owner, repo := repo, branch := branch, path := path, isFile := true,
            folderName := filepath.Base path, err := none }
      else if segments.getD 3 "" = "tree" then
        if segments.length < 5 then
          let path := strings.Join (segments.drop 4)
          { owner := owner, repo := repo, branch := "main", path := path, isFile := false,
            folderName := filepath.Base path, err := none }
        else
          let branch := segments.getD 4 ""
          let path := strings.Join (segments.drop 5)
          { owner := owner, repo := repo, branch := branch, path := path, isFile := false,
            folderName := filepath.Base path, err := none }
      else
        { ParseResult.zero with
          owner := owner, repo := repo, err := some "URL muss '/blob/' oder '/tree/' enthalten" }

/-! ## The outside world: network, file system, standard output -/

/-- Content of a file or of a response body: a sequence of bytes, each a
number below 256. -/
abbrev Bytes := List Nat

/-- Source `GitHubContent` (main.go, lines 15-20): one entry of a listing.
The field `Type` of the source is `Type_` here, `Type` being reserved. -/
structure GitHubContent where
  Name : String
  Path : String
  Type_ : String
  DownloadURL : String
deriving DecidableEq, Repr

/-- Outcome of `http.Get`: a transport error, or a response with its status
code, status line and body. -/
inductive Response where
  | failed (err : String)
  | answered (StatusCode : Nat) (Status : String) (Body : Bytes)
deriving DecidableEq, Repr

/-- Go `http.StatusOK`. -/
def http.StatusOK : Nat := 200

/-- What the collaborators answer.  `httpGet url` is the outcome of a GET of
`url`; `jsonDecode body` what `json.Decoder.Decode` makes of a body as a slice
of `GitHubContent`; `mkdirAllErr path` and `createErr path` the error of
`os.MkdirAll` and of `os.Create` on `path`, if any; `copyErr path`, if any, the
number of bytes `io.Copy` writes to the file at `path` before it fails,
and its error. -/
structure Env where
  httpGet : String → Response
  jsonDecode : Bytes → Except String (List GitHubContent)
  mkdirAllErr : String → Option String
  createErr : String → Option String
  copyErr : String → Option (Nat × String)

/-- A call to a collaborator, with its arguments. -/
inductive Event where
  | print (text : String)
  | get (url : String)
  | mkdirAll (path : String)
  | create (path : String)
  | copy (path : String) (body : Bytes)
deriving DecidableEq, Repr

/-- State of the run: the directories and the files of the local file system,
by path name as handed to the operating system, and the calls made so far, in
order. -/
structure State where
  dirs : String → Bool
  files : String → Option Bytes
  events : List Event

/-- Appends a call to the record. -/
def State.record (s : State) (e : Event) : State :=
  { s with events := s.events ++ [e] }

/-- Go `fmt.Printf` and `fmt.Println`, with the text already formatted. -/
def fmt.Printf (text : String) (s : State) : State :=
  s.record (.print text)

/-- The directory `path` and the directories above it, up to the current or
the root directory; `fuel` bounds the number of steps. -/
def dirChain : Nat → String → List String
  | 0, _ => []
  | fuel + 1, path =>
    if filepath.Clean path = "." ∨ filepath.Clean path = "/" then []
    else filepath.Clean path :: dirChain fuel (filepath.Dir (filepath.Clean path))

/-- Go `os.MkdirAll(path, os.ModePerm)`: on success `path` and the directories
above it exist; on failure the model leaves the file system as it was. -/
def os.MkdirAll (env : Env) (path : String) (s : State) : Option String × State :=
  match env.mkdirAllErr path with
  | some e => (some e, s.record (.mkdirAll path))
  | none =>
    (none,
      { s.record (.mkdirAll path) with
        dirs := fun q => decide (q ∈ dirChain (path.length + 1) path) || s.dirs q })

/-- Go `os.Create(path)`: on success the file exists and is empty. -/
def os.Create (env : Env) (path : String) (s : State) : Option String × State :=
  match env.createErr path with
  | some e => (some e, s.record (.create path))
  | none =>
    (none,
      { s.record (.create path) with files := fun q => if q = path then some [] else s.files q })

/-- Go `io.Copy(out, resp.Body)` into the file created at `path`: on success
the file holds the body; on failure it holds the bytes written before. -/
def io.Copy (env : Env) (path : String) (body : Bytes) (s : State) : Option String × State :=
  match env.copyErr path with
  | some (n, e) =>
    (some e,
      { s.record (.copy path body) with
        files := fun q => if q = path then some (body.take n) else s.files q })
  | none =>
    (none,
      { s.record (.copy path body) with files := fun q => if q = path then some body else s.files q })

/-! ## `downloadFile`, `downloadFolder`, `main` -/

/-- Source `downloadFile` (main.go, lines 23-56).  The result is Go's `error`:
`.ok ()` for `nil`. -/
def downloadFile (env : Env) (fileURL outputPath : String) (s : State) :
    Except String Unit × State :=
  match env.httpGet fileURL with
  | .failed err =>
    (.error ("Fehler beim Herunterladen der Datei: " ++ err), s.record (.get fileURL))
  | .answered statusCode status body =>
    if statusCode ≠ http.StatusOK then
      (.error ("Fehler: HTTP Status " ++ status), s.record (.get fileURL))
    else
      match os.MkdirAll env (filepath.Dir outputPath) (s.record (.get fileURL)) with
      | (some err, s1) => (.error ("Fehler beim Erstellen des Verzeichnisses: " ++ err), s1)
      | (none, s1) =>
        match os.Create env outputPath s1 with
        | (some err, s2) => (.error ("Fehler beim Erstellen der Datei: " ++ err), s2)
        | (none, s2) =>
          match io.Copy env outputPath body s2 with
          | (some err, s3) => (.error ("Fehler beim Schreiben der Datei: " ++ err), s3)
          | (none, s3) => (.ok (), s3)

/-- The loop of `downloadFolder` over the entries of a listing (main.go, lines
82-106), from the entry at the head of the list on.  `recurse path localPath`
is the recursive call `downloadFolder(owner, repo, branch, path, localPath)`;
`none` is a call that does not return. -/
def forItems (env : Env)
    (recurse : String → String → State → Option (Except String Unit × State))
    (localPath : String) : List GitHubContent → State → Option (Except String Unit × State)
  | [], s => some (.ok (), s)
  | item :: rest, s =>
    let localItemPath := filepath.Join [localPath, item.Name]
    if item.Type_ = "file" then
      match downloadFile env item.DownloadURL localItemPath
          (fmt.Printf ("Herunterladen der Datei: " ++ item.DownloadURL ++ "\n") s) with
      | (.error err, s1) => some (.error err, s1)
      | (.ok _, s1) =>
        forItems env recurse localPath rest
          (fmt.Printf ("Datei erfolgreich heruntergeladen: " ++ localItemPath ++ "\n") s1)
    else if item.Type_ = "dir" then
      match os.MkdirAll env localItemPath
          (fmt.Printf ("Erstelle Verzeichnis: " ++ localItemPath ++ "\n") s) with
      | (some err, s1) =>
        some (.error ("Fehler beim Erstellen des Verzeichnisses: " ++ err), s1)
      | (none, s1) =>
        match recurse item.Path localItemPath s1 with
        | none => none
        | some (.error err, s2) => some (.error err, s2)
        | some (.ok _, s2) => forItems env recurse localPath rest s2
    else forItems env recurse localPath rest s

/-- The listing URL that `downloadFolder` builds (main.go, line 60). -/
def apiURL (owner repo branch path : String) : String :=
  "https://api.github.com/repos/" ++ owner ++ "/" ++ repo ++ "/contents/" ++ path ++ "?ref="
    ++ branch

/-- Source `downloadFolder` (main.go, lines 59-107).  The recursion of the
source has no bound; `fuel` is the number of nested calls allowed, and `none`
is returned when it is used up. -/
def downloadFolder (env : Env) :
    Nat → String → String → String → String → String → State →
      Option (Except String Unit × State)
  | 0, _, _, _, _, _, _ => none
  | fuel + 1, owner, repo, branch, path, localPath, s =>
    match env.httpGet (apiURL owner repo branch path) with
    | .failed err =>
      some (.error ("Fehler beim Abrufen der API: " ++ err),
        s.record (.get (apiURL owner repo branch path)))
    | .answered statusCode status body =>
      if statusCode ≠ http.StatusOK then
        some (.error ("Fehler: HTTP Status " ++ status ++ " bei URL "
            ++ apiURL owner repo branch path),
          s.record (.get (apiURL owner repo branch path)))
      else
        match env.jsonDecode body with
        | .error err =>
          some (.error ("Fehler beim Dekodieren der JSON-Antwort: " ++ err),
            s.record (.get (apiURL owner repo branch path)))
        | .ok contents =>
          forItems env (downloadFolder env fuel owner repo branch) localPath contents
            (s.record (.get (apiURL owner repo branch path)))

/-- Source `main` (main.go, lines 154-199), on the argument vector `args`
(`os.Args`, the program name first).  The result is the state in which the
program ends, `none` when `downloadFolder` does not return within `fuel`. -/
def main (urlParse : String → Except String URL) (env : Env) (fuel : Nat)
    (args : List String) (s : State) : Option State :=
  if args.length < 2 then some (fmt.Printf "Usage: go run main.go <GitHub-URL>\n" s)
  else
    let r := parseGitHubURL urlParse (args.getD 1 "")
    match r.err with
    | some err => some (fmt.Printf ("Fehler beim Parsen der URL: " ++ err ++ "\n") s)
    | none =>
      if r.isFile then
        let rawURL :=
          "https://raw.githubusercontent.com/" ++ r.owner ++ "/" ++ r.repo ++ "/" ++ r.branch
            ++ "/" ++ r.path
        let fileName :=
          if filepath.Base r.path = "" then "downloaded_file" else filepath.Base r.path
        match downloadFile env rawURL fileName
            (fmt.Printf ("Herunterladen der Datei: " ++ rawURL ++ "\n") s) with
        | (.error err, s1) => some (fmt.Printf ("Fehler: " ++ err ++ "\n") s1)
        | (.ok _, s1) =>
          some (fmt.Printf ("Datei erfolgreich heruntergeladen: " ++ fileName ++ "\n") s1)
      else
        let localPath := filepath.Join [".", r.folderName]
        match os.MkdirAll env localPath
            (fmt.Printf ("Erstelle den Ordner: " ++ localPath ++ "\n") s) with
        | (some err, s1) =>
          some (fmt.Printf ("Fehler beim Erstellen des Ordners: " ++ err ++ "\n") s1)
        | (none, s1) =>
          match downloadFolder env fuel r.owner r.repo r.branch r.path localPath
              (fmt.Printf ("Herunterladen des Ordners: " ++ r.path ++ "\n") s1) with
          | none => none
          | some (.error err, s2) => some (fmt.Printf ("Fehler: " ++ err ++ "\n") s2)
          | some (.ok _, s2) =>
            some (fmt.Printf ("Ordner erfolgreich heruntergeladen: " ++ localPath ++ "\n") s2)

/-! ## Concrete worlds for the scenarios -/

/-- The state before the run: an empty file system and no call made. -/
def State.initial : State :=
  { dirs := fun _ => false, files := fun _ => none, events := [] }

/-- The state in which a call ends, and the initial state for a call that
does not return. -/
def endState (r : Option (Except String Unit × State)) : State :=
  match r with
  | some (_, s) => s
  | none => State.initial

/-- An environment given by tables: `pages` maps a URL to the response of a GET
(a URL not listed answers 404), `listings` maps a body to the entries it
decodes to (a body not listed is not valid JSON); the file system never
fails. -/
def serve (pages : List (String × Response)) (listings : List (Bytes × List GitHubContent)) : Env :=
  { httpGet := fun url => (pages.lookup url).getD (.answered 404 "404 Not Found" [])
    jsonDecode := fun body =>
      match listings.lookup body with
      | some entries => .ok entries
      | none => .error "invalid character"
    mkdirAllErr := fun _ => none
    createErr := fun _ => none
    copyErr := fun _ => none }

/-- A raw-content server with one file of three bytes. -/
def oneFile : Env :=
  serve [("https://raw.example/acme/widgets/main/a.txt", .answered 200 "200 OK" [104, 105, 10])] []

/-- The world of `oneFile` on a disk that is full after one byte. -/
def fullDisk : Env :=
  { oneFile with copyErr := fun _ => some (1, "no space left on device") }

/-- A raw-content server that answers the GET of the file with the success
status 201 and the three bytes. -/
def createdAnswer : Env :=
  serve
    [("https://raw.example/acme/widgets/main/a.txt", .answered 201 "201 Created" [104, 105, 10])]
    []

/-- Three file entries of the directory `docs`. -/
def threeEntries : List GitHubContent :=
  [ { Name := "a.txt", Path := "docs/a.txt", Type_ := "file", DownloadURL := "https://raw.example/a" },
    { Name := "b.txt", Path := "docs/b.txt", Type_ := "file", DownloadURL := "https://raw.example/b" },
    { Name := "c.txt", Path := "docs/c.txt", Type_ := "file", DownloadURL := "https://raw.example/c" } ]

/-- A listing of three files of which the second is missing on the server. -/
def secondMissing : Env :=
  serve
    [ ("https://api.github.com/repos/acme/widgets/contents/docs?ref=main",
        .answered 200 "200 OK" [1]),
      ("https://raw.example/a", .answered 200 "200 OK" [97]),
      ("https://raw.example/c", .answered 200 "200 OK" [99]) ]
    [([1], threeEntries)]

/-- The directory entry of the flattening scenario. -/
def subEntry : GitHubContent :=
  { Name := "sub", Path := "a/b/sub", Type_ := "dir", DownloadURL := "" }

/-- The directory `a/b` holds the directory `sub`, which holds one file. -/
def nested : Env :=
  serve
    [ ("https://api.github.com/repos/acme/widgets/contents/a/b?ref=main",
        .answered 200 "200 OK" [1]),
      ("https://api.github.com/repos/acme/widgets/contents/a/b/sub?ref=main",
        .answered 200 "200 OK" [2]),
      ("https://raw.example/f", .answered 200 "200 OK" [102]) ]
    [ ([1], [subEntry]),
      ([2], [{ Name := "f.txt", Path := "a/b/sub/f.txt", Type_ := "file",
               DownloadURL := "https://raw.example/f" }]) ]

/-- The world of `nested` in which the directory `root/sub` cannot be made. -/
def lockedDisk : Env :=
  { nested with
    mkdirAllErr := fun path => if path = "root/sub" then some "permission denied" else none }

/-- A symbolic link, an entry of a type the program does not know. -/
def linkEntry : GitHubContent :=
  { Name := "ln", Path := "a/b/ln", Type_ := "symlink", DownloadURL := "https://raw.example/ln" }

/-- The entries of a listing that the loop of `downloadFolder` acts on. -/
def recognised (item : GitHubContent) : Bool :=
  item.Type_ = "file" || item.Type_ = "dir"

/-- The environment in which every listing has lost its entries of an
unrecognised type. -/
def dropUnrecognised (env : Env) : Env :=
  { env with
    jsonDecode := fun body =>
      match env.jsonDecode body with
      | .ok entries => .ok (entries.filter recognised)
      | .error err => .error err }

/-! ## Properties of `parseGitHubURL` -/

/-- Reading a list below its length with `getD` is reading the element. -/
theorem getElem?_of_lt_length {α : Type} (l : List α) (i : Nat) (d : α) (h : i < l.length) :
    l[i]? = some (l.getD i d) := by
  rw [List.getD_eq_getElem?_getD, List.getElem?_eq_getElem h]
  rfl

/-- Nothing is left of a list when as many elements are dropped as it has. -/
theorem join_drop_length (l : List String) (n : Nat) (h : l.length ≤ n) :
    strings.Join (l.drop n) = "" := by
  rw [List.drop_of_length_le h]
  rfl

/-- A path that begins with a slash splits into pieces of which the first is
empty. -/
theorem split_head_of_slash (p : String) (h : p.data.head? = some '/') :
    (strings.Split p).head? = some "" := by
  unfold strings.Split
  cases hp : p.data with
  | nil => simp [hp] at h
  | cons c cs =>
    rw [hp] at h
    simp only [List.head?_cons, Option.some.injEq] at h
    subst h
    simp [splitChars]

section ParseCases

variable (urlParse : String → Except String URL) (githubURL : String) (parsedURL : URL)

/-- Result for a path of fewer than four segments. -/
theorem parse_short (hparse : urlParse githubURL = .ok parsedURL)
    (h4 : (strings.Split parsedURL.Path).length < 4) :
    parseGitHubURL urlParse githubURL
      = { ParseResult.zero with err := some "Ungültige GitHub-URL" } := by
  simp only [parseGitHubURL, hparse]
  rw [if_pos h4]

/-- Result for the marker `blob` with nothing after it. -/
theorem parse_blob_short (hparse : urlParse githubURL = .ok parsedURL)
    (h4 : ¬ (strings.Split parsedURL.Path).length < 4)
    (hb : (strings.Split parsedURL.Path).getD 3 "" = "blob")
    (h5 : (strings.Split parsedURL.Path).length < 5) :
    parseGitHubURL urlParse githubURL
      = { ParseResult.zero with
          owner := (strings.Split parsedURL.Path).getD 1 "",
          repo := (strings.Split parsedURL.Path).getD 2 "", isFile := true,
          err := some "Ungültige GitHub-Datei-URL" } := by
  simp only [parseGitHubURL, hparse]
  rw [if_neg h4, if_pos hb, if_pos h5]

/-- Result for the marker `blob` followed by a branch. -/
theorem parse_blob (hparse : urlParse githubURL = .ok parsedURL)
    (h4 : ¬ (strings.Split parsedURL.Path).length < 4)
    (hb : (strings.Split parsedURL.Path).getD 3 "" = "blob")
    (h5 : ¬ (strings.Split parsedURL.Path).length < 5) :
    parseGitHubURL urlParse githubURL
      = { owner := (strings.Split parsedURL.Path).getD 1 "",
          repo := (strings.Split parsedURL.Path).getD 2 "",
          branch := (strings.Split parsedURL.Path).getD 4 "",
          path := strings.Join ((strings.Split parsedURL.Path).drop 5), isFile := true,
          folderName := filepath.Base (strings.Join ((strings.Split parsedURL.Path).drop 5)),
          err := none } := by
  simp only [parseGitHubURL, hparse]
  rw [if_neg h4, if_pos hb, if_neg h5]

/-- Result for the marker `tree` with nothing after it. -/
theorem parse_tree_short (hparse : urlParse githubURL = .ok parsedURL)
    (h4 : ¬ (strings.Split parsedURL.Path).length < 4)
    (hb : ¬ (strings.Split parsedURL.Path).getD 3 "" = "blob")
    (ht : (strings.Split parsedURL.Path).getD 3 "" = "tree")
    (h5 : (strings.Split parsedURL.Path).length < 5) :
    parseGitHubURL urlParse githubURL
      = { owner := (strings.Split parsedURL.Path).getD 1 "",
          repo := (strings.Split parsedURL.Path).getD 2 "",
          branch := "main",
          path := strings.Join ((strings.Split parsedURL.Path).drop 4), isFile := false,
          folderName := filepath.Base (strings.Join ((strings.Split parsedURL.Path).drop 4)),
          err := none } := by
  simp only [parseGitHubURL, hparse]
  rw [if_neg h4, if_neg hb, if_pos ht, if_pos h5]

/-- Result for the marker `tree` followed by a branch. -/
theorem parse_tree (hparse : urlParse githubURL = .ok parsedURL)
    (h4 : ¬ (strings.Split parsedURL.Path).length < 4)
    (hb : ¬ (strings.Split parsedURL.Path).getD 3 "" = "blob")
    (ht : (strings.Split parsedURL.Path).getD 3 "" = "tree")
    (h5 : ¬ (strings.Split parsedURL.Path).length < 5) :
    parseGitHubURL urlParse githubURL
      = { owner := (strings.Split parsedURL.Path).getD 1 "",
          repo := (strings.Split parsedURL.Path).getD 2 "",
          branch := (strings.Split parsedURL.Path).getD 4 "",
          path := strings.Join ((strings.Split parsedURL.Path).drop 5), isFile := false,
          folderName := filepath.Base (strings.Join ((strings.Split parsedURL.Path).drop 5)),
          err := none } := by
  simp only [parseGitHubURL, hparse]
  rw [if_neg h4, if_neg hb, if_pos ht, if_neg h5]

/-- Result for a marker that is neither `blob` nor `tree`. -/
theorem parse_other (hparse : urlParse githubURL = .ok parsedURL)
    (h4 : ¬ (strings.Split parsedURL.Path).length < 4)
    (hb : ¬ (strings.Split parsedURL.Path).getD 3 "" = "blob")
    (ht : ¬ (strings.Split parsedURL.Path).getD 3 "" = "tree") :
    parseGitHubURL urlParse githubURL
      = { ParseResult.zero with
          owner := (strings.Split parsedURL.Path).getD 1 "",
          repo := (strings.Split parsedURL.Path).getD 2 "",
          err := some "URL muss '/blob/' oder '/tree/' enthalten" } := by
  simp only [parseGitHubURL, hparse]
  rw [if_neg h4, if_neg hb, if_neg ht]

end ParseCases

/-- C1: let segments be the path that the URL parser yields, split at the
slashes; the first piece is empty when the path begins with a slash.  For every
URL that `parseGitHubURL` accepts, owner is `segments[1]`, repo is
`segments[2]` and `isFile` is true exactly when `segments[3]` is `blob`; with
five segments or more branch is `segments[4]` and path is `segments[5:]` joined
with slashes; for the marker `tree` and exactly four segments branch is `main`
and path is empty. -/
theorem parseGitHubURL_accepts (urlParse : String → Except String URL) (githubURL : String)
    (parsedURL : URL) (hparse : urlParse githubURL = .ok parsedURL)
    (hacc : (parseGitHubURL urlParse githubURL).err = none) :
    (parsedURL.Path.data.head? = some '/' → (strings.Split parsedURL.Path).head? = some "") ∧
    (strings.Split parsedURL.Path)[1]? = some (parseGitHubURL urlParse githubURL).owner ∧
    (strings.Split parsedURL.Path)[2]? = some (parseGitHubURL urlParse githubURL).repo ∧
    ((parseGitHubURL urlParse githubURL).isFile = true ↔
      (strings.Split parsedURL.Path)[3]? = some "blob") ∧
    (5 ≤ (strings.Split parsedURL.Path).length →
      (strings.Split parsedURL.Path)[4]? = some (parseGitHubURL urlParse githubURL).branch ∧
      (parseGitHubURL urlParse githubURL).path
        = strings.Join ((strings.Split parsedURL.Path).drop 5)) ∧
    ((strings.Split parsedURL.Path)[3]? = some "tree" →
      (strings.Split parsedURL.Path).length = 4 →
      (parseGitHubURL urlParse githubURL).branch = "main" ∧
      (parseGitHubURL urlParse githubURL).path = "") := by
  refine ⟨split_head_of_slash parsedURL.Path, ?_⟩
  by_cases h4 : (strings.Split parsedURL.Path).length < 4
  · rw [parse_short urlParse githubURL parsedURL hparse h4] at hacc
    exact absurd hacc (by simp)
  · have e1 := getElem?_of_lt_length (strings.Split parsedURL.Path) 1 "" (by omega)
    have e2 := getElem?_of_lt_length (strings.Split parsedURL.Path) 2 "" (by omega)
    have e3 := getElem?_of_lt_length (strings.Split parsedURL.Path) 3 "" (by omega)
    by_cases hb : (strings.Split parsedURL.Path).getD 3 "" = "blob"
    · by_cases h5 : (strings.Split parsedURL.Path).length < 5
      · rw [parse_blob_short urlParse githubURL parsedURL hparse h4 hb h5] at hacc
        exact absurd hacc (by simp)
      · have e4 := getElem?_of_lt_length (strings.Split parsedURL.Path) 4 "" (by omega)
        rw [parse_blob urlParse githubURL parsedURL hparse h4 hb h5]
        refine ⟨e1, e2, ⟨fun _ => by rw [e3, hb], fun _ => rfl⟩, fun _ => ⟨e4, rfl⟩, ?_⟩
        intro _ hlen
        omega
    · by_cases ht : (strings.Split parsedURL.Path).getD 3 "" = "tree"
      · by_cases h5 : (strings.Split parsedURL.Path).length < 5
        · rw [parse_tree_short urlParse githubURL parsedURL hparse h4 hb ht h5]
          refine ⟨e1, e2, ⟨fun h => by simp at h, fun h => ?_⟩, fun h => by omega, ?_⟩
          · rw [e3] at h
            exact absurd (Option.some.inj h) hb
          · intro _ hlen
            exact ⟨rfl, join_drop_length _ 4 (by omega)⟩
        · have e4 := getElem?_of_lt_length (strings.Split parsedURL.Path) 4 "" (by omega)
          rw [parse_tree urlParse githubURL parsedURL hparse h4 hb ht h5]
          refine ⟨e1, e2, ⟨fun h => by simp at h, fun h => ?_⟩, fun _ => ⟨e4, rfl⟩, ?_⟩
          · rw [e3] at h
            exact absurd (Option.some.inj h) hb
          · intro _ hlen
            omega
      · rw [parse_other urlParse githubURL parsedURL hparse h4 hb ht] at hacc
        exact absurd hacc (by simp)

/-- Witness of C1: the URL of a file three levels below the marker. -/
theorem parseGitHubURL_accepts_witness :
    (strings.Split "/acme/widgets/blob/main/src/app.go")[1]?
        = some (parseGitHubURL url.Parse "https://host/acme/widgets/blob/main/src/app.go").owner ∧
    (parseGitHubURL url.Parse "https://host/acme/widgets/blob/main/src/app.go").path
        = "src/app.go" :=
  have h := parseGitHubURL_accepts url.Parse "https://host/acme/widgets/blob/main/src/app.go"
    { Path := "/acme/widgets/blob/main/src/app.go" } (by rfl) (by decide)
  ⟨h.2.1, by decide⟩

/-- C2: for every URL of which the parser yields the path, with segments the
path split at the slashes, `parseGitHubURL` returns an error exactly when there
are fewer than four segments, or `segments[3]` is neither `blob` nor `tree`, or
`segments[3]` is `blob` and there are fewer than five segments. -/
theorem parseGitHubURL_err_iff (urlParse : String → Except String URL) (githubURL : String)
    (parsedURL : URL) (hparse : urlParse githubURL = .ok parsedURL) :
    (parseGitHubURL urlParse githubURL).err ≠ none ↔
      ((strings.Split parsedURL.Path).length < 4 ∨
        ((strings.Split parsedURL.Path)[3]? ≠ some "blob" ∧
          (strings.Split parsedURL.Path)[3]? ≠ some "tree") ∨
        ((strings.Split parsedURL.Path)[3]? = some "blob" ∧
          (strings.Split parsedURL.Path).length < 5)) := by
  by_cases h4 : (strings.Split parsedURL.Path).length < 4
  · rw [parse_short urlParse githubURL parsedURL hparse h4]
    exact ⟨fun _ => Or.inl h4, fun _ => by simp⟩
  · have e3 := getElem?_of_lt_length (strings.Split parsedURL.Path) 3 "" (by omega)
    rw [e3]
    by_cases hb : (strings.Split parsedURL.Path).getD 3 "" = "blob"
    · by_cases h5 : (strings.Split parsedURL.Path).length < 5
      · rw [parse_blob_short urlParse githubURL parsedURL hparse h4 hb h5]
        exact ⟨fun _ => Or.inr (Or.inr ⟨by rw [hb], h5⟩), fun _ => by simp⟩
      · rw [parse_blob urlParse githubURL parsedURL hparse h4 hb h5]
        constructor
        · intro h
          exact absurd rfl h
        · rintro (h | ⟨h, _⟩ | ⟨_, h⟩)
          · exact absurd h h4
          · rw [hb] at h
            exact absurd rfl h
          · exact absurd h h5
    · have hb' : some ((strings.Split parsedURL.Path).getD 3 "") ≠ some "blob" :=
        fun h => hb (Option.some.inj h)
      by_cases ht : (strings.Split parsedURL.Path).getD 3 "" = "tree"
      · have hnone : (parseGitHubURL urlParse githubURL).err = none := by
          by_cases h5 : (strings.Split parsedURL.Path).length < 5
          · rw [parse_tree_short urlParse githubURL parsedURL hparse h4 hb ht h5]
          · rw [parse_tree urlParse githubURL parsedURL hparse h4 hb ht h5]
        rw [hnone]
        constructor
        · intro h
          exact absurd rfl h
        · rintro (h | ⟨_, h⟩ | ⟨h, _⟩)
          · exact absurd h h4
          · rw [ht] at h
            exact absurd rfl h
          · exact absurd h hb'
      · rw [parse_other urlParse githubURL parsedURL hparse h4 hb ht]
        exact ⟨fun _ => Or.inr (Or.inl ⟨hb', fun h => ht (Option.some.inj h)⟩), fun _ => by simp⟩

/-- Witness of C2: a file URL without a branch is refused. -/
theorem parseGitHubURL_err_iff_witness :
    (parseGitHubURL url.Parse "https://host/acme/widgets/blob").err ≠ none :=
  (parseGitHubURL_err_iff url.Parse "https://host/acme/widgets/blob"
    { Path := "/acme/widgets/blob" } (by rfl)).mpr (Or.inr (Or.inr (by decide)))

/-! ## `filepath.Base` in terms of the segments of a path -/

/-- A split is never empty. -/
theorem splitChars_ne_nil (sep : Char) (l : List Char) : splitChars sep l ≠ [] := by
  cases l with
  | nil => simp [splitChars]
  | cons c cs =>
    unfold splitChars
    split_ifs
    · simp
    · split <;> simp

/-- A separator at the end opens a new, empty piece. -/
theorem splitChars_snoc_sep (sep : Char) (l : List Char) :
    splitChars sep (l ++ [sep]) = splitChars sep l ++ [[]] := by
  induction l with
  | nil => simp [splitChars]
  | cons a l ih =>
    by_cases ha : a = sep
    · simp [splitChars, ha, ih]
    · cases hs : splitChars sep l with
      | nil => exact absurd hs (splitChars_ne_nil sep l)
      | cons seg segs => simp [splitChars, ha, ih, hs]

/-- Any other character at the end extends the last piece. -/
theorem splitChars_snoc_other (sep c : Char) (hc : c ≠ sep) (l : List Char) :
    splitChars sep (l ++ [c])
      = (splitChars sep l).dropLast ++ [(splitChars sep l).getLast?.getD [] ++ [c]] := by
  induction l with
  | nil => simp [splitChars, hc]
  | cons a l ih =>
    cases hs : splitChars sep l with
    | nil => exact absurd hs (splitChars_ne_nil sep l)
    | cons seg segs =>
      rw [hs] at ih
      by_cases ha : a = sep
      · simp [splitChars, ha, ih, hs, List.dropLast]
      · cases segs with
        | nil => simp_all [splitChars]
        | cons s2 segs2 => simp_all [splitChars, List.dropLast]

/-- The last piece of a split is the stretch after the last separator. -/
theorem splitChars_getLast (sep : Char) (l : List Char) :
    (splitChars sep l).getLast?.getD [] = (l.reverse.takeWhile (fun c => c != sep)).reverse := by
  induction l using List.reverseRecOn with
  | nil => simp [splitChars]
  | append_singleton l c ih =>
    by_cases hc : c = sep
    · subst hc
      simp [splitChars_snoc_sep]
    · simp [splitChars_snoc_other sep c hc, ih, List.takeWhile_cons, hc]

/-- Core of `filepath.Base`: trailing separators are dropped and the stretch
after the last remaining separator is the last non-empty piece of the split. -/
theorem base_chars (l : List Char) :
    ((l.reverse.dropWhile (fun c => c == '/')).takeWhile (fun c => c != '/')).reverse
      = (((splitChars '/' l).filter (fun seg => seg ≠ [])).getLast?).getD [] := by
  induction l using List.reverseRecOn with
  | nil => simp [splitChars]
  | append_singleton l c ih =>
    by_cases hc : c = '/'
    · subst hc
      simpa [splitChars_snoc_sep, List.dropWhile_cons] using ih
    · simp [splitChars_snoc_other '/' c hc, List.dropWhile_cons, List.takeWhile_cons, hc,
        List.filter_append, splitChars_getLast]

/-- The last non-empty piece, read on strings or on character lists. -/
theorem last_nonempty_mk (segs : List (List Char)) :
    (if ((segs.filter (fun seg => seg ≠ [])).getLast?).getD [] = [] then "/"
      else String.mk (((segs.filter (fun seg => seg ≠ [])).getLast?).getD []))
      = ((((segs.map String.mk).filter (fun seg => seg ≠ "")).getLast?).getD "/") := by
  have hfun : ((fun seg : String => decide (seg ≠ "")) ∘ String.mk)
      = (fun seg : List Char => decide (seg ≠ [])) := by
    funext seg
    simp [String.ext_iff]
  rw [List.filter_map, hfun, List.getLast?_map]
  cases h : (segs.filter (fun seg => decide (seg ≠ []))).getLast? with
  | none => simp
  | some seg =>
    have hmem := List.mem_of_getLast?_eq_some h
    have hne : seg ≠ [] := by simpa using (List.mem_filter.mp hmem).2
    simp [hne]

/-- The local name `filepath.Base path` in terms of the segments of the path:
`"."` for the empty path, otherwise the last segment that is not empty, and
`"/"` when there is none. -/
theorem base_eq_last_segment (path : String) :
    filepath.Base path
      = if path = "" then "."
        else (((strings.Split path).filter (fun seg => seg ≠ "")).getLast?).getD "/" := by
  unfold filepath.Base
  by_cases hp : path = ""
  · simp [hp]
  · simp only [hp, if_false]
    rw [base_chars]
    exact last_nonempty_mk (splitChars '/' path.data)

/-! ## The branch and the local name -/

/-- C3 as stated fails: for `https://host/acme/widgets/tree/docs` the result is
not branch `main` with path `docs`. -/
theorem tree_docs_counterexample :
    ¬ ((parseGitHubURL url.Parse "https://host/acme/widgets/tree/docs").err = none ∧
        (parseGitHubURL url.Parse "https://host/acme/widgets/tree/docs").isFile = false ∧
        (parseGitHubURL url.Parse "https://host/acme/widgets/tree/docs").branch = "main" ∧
        (parseGitHubURL url.Parse "https://host/acme/widgets/tree/docs").path = "docs") := by
  decide

/-- C3, amended: for `https://host/acme/widgets/tree/docs` the segment after the
marker is the branch: no error, `isFile` false, branch `docs`, empty path.  The
branch is `main` when nothing follows the marker, as in
`https://host/acme/widgets/tree`, and the path is empty then. -/
theorem tree_docs_branch (urlParse : String → Except String URL)
    (hdocs : urlParse "https://host/acme/widgets/tree/docs"
      = .ok { Path := "/acme/widgets/tree/docs" })
    (hbare : urlParse "https://host/acme/widgets/tree" = .ok { Path := "/acme/widgets/tree" }) :
    parseGitHubURL urlParse "https://host/acme/widgets/tree/docs"
      = { owner := "acme", repo := "widgets", branch := "docs", path := "", isFile := false,
          folderName := ".", err := none } ∧
    parseGitHubURL urlParse "https://host/acme/widgets/tree"
      = { owner := "acme", repo := "widgets", branch := "main", path := "", isFile := false,
          folderName := ".", err := none } := by
  constructor
  · simp only [parseGitHubURL, hdocs]
    decide
  · simp only [parseGitHubURL, hbare]
    decide

/-- Witness of C3, amended: the library parser yields the two paths. -/
theorem tree_docs_branch_witness :
    (parseGitHubURL url.Parse "https://host/acme/widgets/tree/docs").branch = "docs" ∧
    (parseGitHubURL url.Parse "https://host/acme/widgets/tree/docs").path = "" ∧
    (parseGitHubURL url.Parse "https://host/acme/widgets/tree").branch = "main" :=
  have h := tree_docs_branch url.Parse (by rfl) (by rfl)
  ⟨congrArg ParseResult.branch h.1, congrArg ParseResult.path h.1,
    congrArg ParseResult.branch h.2⟩

/-- On an accepted URL the local name is `filepath.Base` of the path. -/
theorem folderName_eq_base (urlParse : String → Except String URL) (githubURL : String)
    (hacc : (parseGitHubURL urlParse githubURL).err = none) :
    (parseGitHubURL urlParse githubURL).folderName
      = filepath.Base (parseGitHubURL urlParse githubURL).path := by
  cases hparse : urlParse githubURL with
  | error e =>
    simp [parseGitHubURL, hparse] at hacc
  | ok parsedURL =>
    by_cases h4 : (strings.Split parsedURL.Path).length < 4
    · rw [parse_short urlParse githubURL parsedURL hparse h4] at hacc
      exact absurd hacc (by simp)
    · by_cases hb : (strings.Split parsedURL.Path).getD 3 "" = "blob"
      · by_cases h5 : (strings.Split parsedURL.Path).length < 5
        · rw [parse_blob_short urlParse githubURL parsedURL hparse h4 hb h5] at hacc
          exact absurd hacc (by simp)
        · rw [parse_blob urlParse githubURL parsedURL hparse h4 hb h5]
      · by_cases ht : (strings.Split parsedURL.Path).getD 3 "" = "tree"
        · by_cases h5 : (strings.Split parsedURL.Path).length < 5
          · rw [parse_tree_short urlParse githubURL parsedURL hparse h4 hb ht h5]
          · rw [parse_tree urlParse githubURL parsedURL hparse h4 hb ht h5]
        · rw [parse_other urlParse githubURL parsedURL hparse h4 hb ht] at hacc
          exact absurd hacc (by simp)

/-- A last element that passes a filter is the last element of what passes. -/
theorem getLast?_filter_of_pos {α : Type} (p : α → Bool) (l : List α) (a : α)
    (hlast : l.getLast? = some a) (hp : p a = true) : (l.filter p).getLast? = some a := by
  have hl : l.dropLast ++ [a] = l := List.dropLast_append_getLast? a hlast
  rw [← hl, List.filter_append]
  simp [hp]

/-- C6 as stated fails: for a tree URL that addresses the repository root the
path is empty, its last segment is the empty string, and the local name is
neither. -/
theorem root_folderName_counterexample :
    (parseGitHubURL url.Parse "https://host/acme/widgets/tree/main").err = none ∧
    (parseGitHubURL url.Parse "https://host/acme/widgets/tree/main").path = "" ∧
    (strings.Split (parseGitHubURL url.Parse "https://host/acme/widgets/tree/main").path).getLast?
      = some "" ∧
    (parseGitHubURL url.Parse "https://host/acme/widgets/tree/main").folderName ≠ "" := by
  decide

/-- C6, amended: for every URL that `parseGitHubURL` accepts, the local name is
`"."` when the returned path is empty (a tree URL that addresses the repository
root); otherwise it is the last segment of the path that is not empty, and `"/"`
when the path has none; in particular it is the last segment of the path
whenever that segment is not empty. -/
theorem folderName_last_segment (urlParse : String → Except String URL) (githubURL : String)
    (hacc : (parseGitHubURL urlParse githubURL).err = none) :
    (parseGitHubURL urlParse githubURL).folderName
      = (if (parseGitHubURL urlParse githubURL).path = "" then "."
        else (((strings.Split (parseGitHubURL urlParse githubURL).path).filter
          (fun seg => seg ≠ "")).getLast?).getD "/") ∧
    (∀ seg, (strings.Split (parseGitHubURL urlParse githubURL).path).getLast? = some seg →
      seg ≠ "" → (parseGitHubURL urlParse githubURL).folderName = seg) := by
  rw [folderName_eq_base urlParse githubURL hacc]
  generalize (parseGitHubURL urlParse githubURL).path = path
  refine ⟨base_eq_last_segment path, ?_⟩
  intro seg hlast hseg
  rw [base_eq_last_segment]
  by_cases hp : path = ""
  · subst hp
    have : seg = "" := by
      have h2 : (strings.Split "").getLast? = some "" := by decide
      rw [h2] at hlast
      exact (Option.some.inj hlast).symm
    exact absurd this hseg
  · rw [if_neg hp,
      getLast?_filter_of_pos (fun seg => decide (seg ≠ "")) _ seg hlast (by simpa using hseg)]
    rfl

/-- Witness of C6, amended: the local names of a directory URL, of a file URL
and of the repository root. -/
theorem folderName_last_segment_witness :
    (parseGitHubURL url.Parse "https://host/acme/widgets/tree/dev/lib").folderName = "lib" ∧
    (parseGitHubURL url.Parse "https://host/acme/widgets/blob/main/src/app.go").folderName
      = "app.go" ∧
    (parseGitHubURL url.Parse "https://host/acme/widgets/tree/main").folderName = "." :=
  ⟨(folderName_last_segment url.Parse "https://host/acme/widgets/tree/dev/lib"
      (by decide)).2 "lib" (by decide) (by decide),
    (folderName_last_segment url.Parse "https://host/acme/widgets/blob/main/src/app.go"
      (by decide)).2 "app.go" (by decide) (by decide),
    (folderName_last_segment url.Parse "https://host/acme/widgets/tree/main" (by decide)).1⟩

/-- The result of `filepath.Base` is never the empty string. -/
theorem base_ne_empty (path : String) : filepath.Base path ≠ "" := by
  unfold filepath.Base
  by_cases hp : path = ""
  · simp [hp]
  · simp only [hp, if_false]
    split_ifs with hl
    · decide
    · intro h
      exact hl (by simpa [String.ext_iff] using h)

/-- C7, the code at the failing input: for the file URL
`https://github.com/acme/widgets/blob/main`, whose path is empty, `main` calls
`downloadFile` with the destination `"."` and not with `"downloaded_file"`;
the test that guards the placeholder never holds, `filepath.Base` returning no
empty string. -/
theorem main_empty_path_file_name (env : Env) (fuel : Nat) (s : State) :
    main url.Parse env fuel ["getgit", "https://github.com/acme/widgets/blob/main"] s
      = some
        (match downloadFile env "https://raw.githubusercontent.com/acme/widgets/main/" "."
            (fmt.Printf
              "Herunterladen der Datei: https://raw.githubusercontent.com/acme/widgets/main/\n"
              s) with
          | (.error err, s1) => fmt.Printf ("Fehler: " ++ err ++ "\n") s1
          | (.ok _, s1) => fmt.Printf "Datei erfolgreich heruntergeladen: .\n" s1) ∧
    (parseGitHubURL url.Parse "https://github.com/acme/widgets/blob/main").path = "" ∧
    ∀ path, (if filepath.Base path = "" then "downloaded_file" else filepath.Base path)
      = filepath.Base path := by
  refine ⟨?_, by decide, fun path => if_neg (base_ne_empty path)⟩
  have hr : parseGitHubURL url.Parse "https://github.com/acme/widgets/blob/main"
      = { owner := "acme", repo := "widgets", branch := "main", path := "", isFile := true,
          folderName := ".", err := none } := by decide
  have hargs : (["getgit", "https://github.com/acme/widgets/blob/main"] : List String).getD 1 ""
      = "https://github.com/acme/widgets/blob/main" := rfl
  have hlen : ¬ (["getgit", "https://github.com/acme/widgets/blob/main"] : List String).length
      < 2 := by decide
  have hbase : filepath.Base "" = "." := by decide
  have hraw : "https://raw.githubusercontent.com/" ++ "acme" ++ "/" ++ "widgets" ++ "/" ++ "main"
      ++ "/" ++ "" = "https://raw.githubusercontent.com/acme/widgets/main/" := by decide
  have hdot : ("." : String) ≠ "" := by decide
  simp only [main, hargs, hr, if_neg hlen, hbase, hraw, if_neg hdot, if_true]
  have hmsg : "Datei erfolgreich heruntergeladen: " ++ "." ++ "\n"
      = "Datei erfolgreich heruntergeladen: .\n" := by decide
  have hmsg2 : "Herunterladen der Datei: " ++ "https://raw.githubusercontent.com/acme/widgets/main/"
      ++ "\n"
      = "Herunterladen der Datei: https://raw.githubusercontent.com/acme/widgets/main/\n" := by
    decide
  rw [hmsg, hmsg2]
  rcases downloadFile env "https://raw.githubusercontent.com/acme/widgets/main/" "."
      (fmt.Printf
        "Herunterladen der Datei: https://raw.githubusercontent.com/acme/widgets/main/\n" s)
    with ⟨_ | _, s1⟩ <;> rfl

/-! ## Properties of `downloadFile` -/

/-- C8 as stated fails, in two ways.  First, the GET answers with the success
status 201 and a body of three bytes, and the directory, the file and the copy
would all succeed: `downloadFile` returns the status error after the GET alone
and no file is written, 200 being the only status it accepts.  Second, the GET
answers 200 with the body, the directory and the file are created, and yet
`downloadFile` returns an error and the file holds one byte, the copy having
failed. -/
theorem round_trip_counterexample :
    (createdAnswer.httpGet "https://raw.example/acme/widgets/main/a.txt"
        = .answered 201 "201 Created" [104, 105, 10] ∧
      createdAnswer.mkdirAllErr (filepath.Dir "out/a.txt") = none ∧
      createdAnswer.createErr "out/a.txt" = none ∧
      createdAnswer.copyErr "out/a.txt" = none ∧
      (downloadFile createdAnswer "https://raw.example/acme/widgets/main/a.txt" "out/a.txt"
        State.initial).1 = .error "Fehler: HTTP Status 201 Created" ∧
      (downloadFile createdAnswer "https://raw.example/acme/widgets/main/a.txt" "out/a.txt"
        State.initial).2.files "out/a.txt" = none ∧
      (downloadFile createdAnswer "https://raw.example/acme/widgets/main/a.txt" "out/a.txt"
        State.initial).2.events = [.get "https://raw.example/acme/widgets/main/a.txt"]) ∧
    (fullDisk.httpGet "https://raw.example/acme/widgets/main/a.txt"
        = .answered http.StatusOK "200 OK" [104, 105, 10] ∧
      fullDisk.mkdirAllErr (filepath.Dir "out/a.txt") = none ∧
      fullDisk.createErr "out/a.txt" = none ∧
      (downloadFile fullDisk "https://raw.example/acme/widgets/main/a.txt" "out/a.txt"
        State.initial).1 = .error "Fehler beim Schreiben der Datei: no space left on device" ∧
      (downloadFile fullDisk "https://raw.example/acme/widgets/main/a.txt" "out/a.txt"
        State.initial).2.files "out/a.txt" = some [104]) :=
  ⟨⟨rfl, rfl, rfl, rfl, rfl, rfl, rfl⟩, ⟨rfl, rfl, rfl, rfl, rfl⟩⟩

/-- C8, amended: for every body and every destination path, if the GET issued
by `downloadFile` answers with status 200, the one status the code accepts, and
that body, and the creation of the local directory, the creation of the file
and the copy of the body into it succeed, then `downloadFile` returns no error, the file at the destination path
holds exactly the body, and the content of no other file is changed. -/
theorem downloadFile_round_trip (env : Env) (fileURL outputPath status : String) (body : Bytes)
    (s : State)
    (hget : env.httpGet fileURL = .answered http.StatusOK status body)
    (hmkdir : env.mkdirAllErr (filepath.Dir outputPath) = none)
    (hcreate : env.createErr outputPath = none)
    (hcopy : env.copyErr outputPath = none) :
    (downloadFile env fileURL outputPath s).1 = .ok () ∧
    (downloadFile env fileURL outputPath s).2.files outputPath = some body ∧
    ∀ other, other ≠ outputPath →
      (downloadFile env fileURL outputPath s).2.files other = s.files other := by
  simp only [downloadFile, hget, os.MkdirAll, hmkdir, os.Create, hcreate, io.Copy, hcopy,
    State.record, ne_eq, not_true_eq_false, if_false, if_true, true_and]
  intro other hne
  simp [hne]

/-- Witness of C8, amended: a file of three bytes arrives unchanged. -/
theorem downloadFile_round_trip_witness :
    (downloadFile oneFile "https://raw.example/acme/widgets/main/a.txt" "out/a.txt"
      State.initial).1 = .ok () ∧
    (downloadFile oneFile "https://raw.example/acme/widgets/main/a.txt" "out/a.txt"
      State.initial).2.files "out/a.txt" = some [104, 105, 10] :=
  have h := downloadFile_round_trip oneFile "https://raw.example/acme/widgets/main/a.txt"
    "out/a.txt" "200 OK" [104, 105, 10] State.initial rfl rfl rfl rfl
  ⟨h.1, h.2.1⟩

/-- C9: for every response with a status other than 200, and so for every one
that is not a success, `downloadFile` returns an error and does nothing but the
GET: the directories and the files are as before, and no directory and no file
was asked for.  Likewise `downloadFolder` returns an error that names the
listing URL and does nothing but the GET of the listing. -/
theorem non_success_status (env : Env) (statusCode : Nat) (status : String) (body : Bytes)
    (hstatus : statusCode ≠ http.StatusOK) :
    (∀ fileURL outputPath s, env.httpGet fileURL = .answered statusCode status body →
      downloadFile env fileURL outputPath s
        = (.error ("Fehler: HTTP Status " ++ status), s.record (.get fileURL)) ∧
      (downloadFile env fileURL outputPath s).2.dirs = s.dirs ∧
      (downloadFile env fileURL outputPath s).2.files = s.files ∧
      (downloadFile env fileURL outputPath s).2.events = s.events ++ [.get fileURL]) ∧
    (∀ fuel owner repo branch path localPath s,
      env.httpGet (apiURL owner repo branch path) = .answered statusCode status body →
      downloadFolder env (fuel + 1) owner repo branch path localPath s
        = some (.error ("Fehler: HTTP Status " ++ status ++ " bei URL "
              ++ apiURL owner repo branch path),
            s.record (.get (apiURL owner repo branch path))) ∧
      (endState (downloadFolder env (fuel + 1) owner repo branch path localPath s)).dirs
        = s.dirs ∧
      (endState (downloadFolder env (fuel + 1) owner repo branch path localPath s)).files
        = s.files ∧
      (endState (downloadFolder env (fuel + 1) owner repo branch path localPath s)).events
        = s.events ++ [.get (apiURL owner repo branch path)]) := by
  constructor
  · intro fileURL outputPath s hget
    have h : downloadFile env fileURL outputPath s
        = (.error ("Fehler: HTTP Status " ++ status), s.record (.get fileURL)) := by
      simp only [downloadFile, hget, if_pos hstatus]
    rw [h]
    exact ⟨rfl, rfl, rfl, rfl⟩
  · intro fuel owner repo branch path localPath s hget
    have h : downloadFolder env (fuel + 1) owner repo branch path localPath s
        = some (.error ("Fehler: HTTP Status " ++ status ++ " bei URL "
              ++ apiURL owner repo branch path),
            s.record (.get (apiURL owner repo branch path))) := by
      simp only [downloadFolder, hget, if_pos hstatus]
    rw [h]
    exact ⟨rfl, rfl, rfl, rfl⟩

/-- Witness of C9: a file and a listing that the server does not have. -/
theorem non_success_status_witness :
    downloadFile oneFile "https://raw.example/missing" "out/a.txt" State.initial
      = (.error "Fehler: HTTP Status 404 Not Found",
          State.initial.record (.get "https://raw.example/missing")) ∧
    (endState (downloadFolder oneFile 1 "acme" "widgets" "main" "docs" "docs"
      State.initial)).events
      = [.get "https://api.github.com/repos/acme/widgets/contents/docs?ref=main"] :=
  have h := non_success_status oneFile 404 "404 Not Found" [] (by decide)
  ⟨(h.1 "https://raw.example/missing" "out/a.txt" State.initial rfl).1,
    (h.2 0 "acme" "widgets" "main" "docs" "docs" State.initial rfl).2.2.2⟩

/-! ## Properties of `downloadFolder` -/

section Loop

variable (env : Env) (recurse : String → String → State → Option (Except String Unit × State))
  (localPath : String)

/-- A file entry whose download fails ends the loop with that error. -/
theorem forItems_file_error (item : GitHubContent) (rest : List GitHubContent) (s s1 : State)
    (err : String) (hfile : item.Type_ = "file")
    (hdl : downloadFile env item.DownloadURL (filepath.Join [localPath, item.Name])
      (fmt.Printf ("Herunterladen der Datei: " ++ item.DownloadURL ++ "\n") s)
        = (.error err, s1)) :
    forItems env recurse localPath (item :: rest) s = some (.error err, s1) := by
  rw [forItems]
  simp only [if_pos hfile, hdl]

/-- A file entry that is downloaded is followed by the entries after it. -/
theorem forItems_file_ok (item : GitHubContent) (rest : List GitHubContent) (s s1 : State)
    (u : Unit) (hfile : item.Type_ = "file")
    (hdl : downloadFile env item.DownloadURL (filepath.Join [localPath, item.Name])
      (fmt.Printf ("Herunterladen der Datei: " ++ item.DownloadURL ++ "\n") s)
        = (.ok u, s1)) :
    forItems env recurse localPath (item :: rest) s
      = forItems env recurse localPath rest
          (fmt.Printf ("Datei erfolgreich heruntergeladen: "
            ++ filepath.Join [localPath, item.Name] ++ "\n") s1) := by
  rw [forItems]
  simp only [if_pos hfile, hdl]

/-- A directory entry whose local directory cannot be made ends the loop. -/
theorem forItems_dir_mkdir_error (item : GitHubContent) (rest : List GitHubContent)
    (s s1 : State) (err : String) (hfile : item.Type_ ≠ "file") (hdir : item.Type_ = "dir")
    (hmk : os.MkdirAll env (filepath.Join [localPath, item.Name])
      (fmt.Printf ("Erstelle Verzeichnis: " ++ filepath.Join [localPath, item.Name] ++ "\n") s)
        = (some err, s1)) :
    forItems env recurse localPath (item :: rest) s
      = some (.error ("Fehler beim Erstellen des Verzeichnisses: " ++ err), s1) := by
  rw [forItems]
  simp only [if_neg hfile, if_pos hdir, hmk]

/-- A directory entry is processed by the recursive call on its remote path
and on its local directory; the entries after it follow when the call returns
no error. -/
theorem forItems_dir_recurse (item : GitHubContent) (rest : List GitHubContent) (s s1 : State)
    (hfile : item.Type_ ≠ "file") (hdir : item.Type_ = "dir")
    (hmk : os.MkdirAll env (filepath.Join [localPath, item.Name])
      (fmt.Printf ("Erstelle Verzeichnis: " ++ filepath.Join [localPath, item.Name] ++ "\n") s)
        = (none, s1)) :
    forItems env recurse localPath (item :: rest) s
      = match recurse item.Path (filepath.Join [localPath, item.Name]) s1 with
        | none => none
        | some (.error err, s2) => some (.error err, s2)
        | some (.ok _, s2) => forItems env recurse localPath rest s2 := by
  rw [forItems]
  simp only [if_neg hfile, if_pos hdir, hmk]

/-- An entry of an unrecognised type is passed over. -/
theorem forItems_skip (item : GitHubContent) (rest : List GitHubContent) (s : State)
    (hfile : item.Type_ ≠ "file") (hdir : item.Type_ ≠ "dir") :
    forItems env recurse localPath (item :: rest) s = forItems env recurse localPath rest s := by
  rw [forItems]
  simp only [if_neg hfile, if_neg hdir]

/-- The loop on a listing cut in two: the entries of the second part are
processed, from the state the first part leaves, exactly when the first part
returns no error. -/
theorem forItems_append (pre post : List GitHubContent) (s : State) :
    forItems env recurse localPath (pre ++ post) s
      = match forItems env recurse localPath pre s with
        | none => none
        | some (.error err, s1) => some (.error err, s1)
        | some (.ok _, s1) => forItems env recurse localPath post s1 := by
  induction pre generalizing s with
  | nil => simp only [List.nil_append, forItems]
  | cons item pre ih =>
    rw [List.cons_append]
    by_cases hfile : item.Type_ = "file"
    · rcases hdl : downloadFile env item.DownloadURL (filepath.Join [localPath, item.Name])
          (fmt.Printf ("Herunterladen der Datei: " ++ item.DownloadURL ++ "\n") s)
        with ⟨err | u, s1⟩
      · rw [forItems_file_error env recurse localPath item _ s s1 err hfile hdl,
          forItems_file_error env recurse localPath item _ s s1 err hfile hdl]
      · rw [forItems_file_ok env recurse localPath item _ s s1 u hfile hdl,
          forItems_file_ok env recurse localPath item _ s s1 u hfile hdl]
        exact ih _
    · by_cases hdir : item.Type_ = "dir"
      · rcases hmk : os.MkdirAll env (filepath.Join [localPath, item.Name])
            (fmt.Printf ("Erstelle Verzeichnis: " ++ filepath.Join [localPath, item.Name]
              ++ "\n") s)
          with ⟨_ | cause, s1⟩
        · rw [forItems_dir_recurse env recurse localPath item _ s s1 hfile hdir hmk,
            forItems_dir_recurse env recurse localPath item _ s s1 hfile hdir hmk]
          rcases recurse item.Path (filepath.Join [localPath, item.Name]) s1
            with _ | ⟨err | u, s2⟩
          · rfl
          · rfl
          · exact ih _
        · rw [forItems_dir_mkdir_error env recurse localPath item _ s s1 cause hfile hdir hmk,
            forItems_dir_mkdir_error env recurse localPath item _ s s1 cause hfile hdir hmk]
      · rw [forItems_skip env recurse localPath item _ s hfile hdir,
          forItems_skip env recurse localPath item _ s hfile hdir]
        exact ih s

/-- Entries that are processed without error hand the state on to the entries
after them. -/
theorem forItems_append_ok (pre post : List GitHubContent) (s s1 : State)
    (hpre : forItems env recurse localPath pre s = some (.ok (), s1)) :
    forItems env recurse localPath (pre ++ post) s = forItems env recurse localPath post s1 := by
  rw [forItems_append, hpre]

/-- An error among the entries ends the loop, whatever follows. -/
theorem forItems_append_error (pre post : List GitHubContent) (s s1 : State) (err : String)
    (hpre : forItems env recurse localPath pre s = some (.error err, s1)) :
    forItems env recurse localPath (pre ++ post) s = some (.error err, s1) := by
  rw [forItems_append, hpre]

/-- The loop does the same on a listing and on its recognised entries. -/
theorem forItems_filter (items : List GitHubContent) (s : State) :
    forItems env recurse localPath items s
      = forItems env recurse localPath (items.filter recognised) s := by
  induction items generalizing s with
  | nil => rfl
  | cons item rest ih =>
    by_cases hfile : item.Type_ = "file"
    · have hrec : recognised item = true := by simp [recognised, hfile]
      rw [List.filter_cons_of_pos hrec]
      rcases hdl : downloadFile env item.DownloadURL (filepath.Join [localPath, item.Name])
          (fmt.Printf ("Herunterladen der Datei: " ++ item.DownloadURL ++ "\n") s)
        with ⟨err | u, s1⟩
      · rw [forItems_file_error env recurse localPath item _ s s1 err hfile hdl,
          forItems_file_error env recurse localPath item _ s s1 err hfile hdl]
      · rw [forItems_file_ok env recurse localPath item _ s s1 u hfile hdl,
          forItems_file_ok env recurse localPath item _ s s1 u hfile hdl]
        exact ih _
    · by_cases hdir : item.Type_ = "dir"
      · have hrec : recognised item = true := by simp [recognised, hdir]
        rw [List.filter_cons_of_pos hrec]
        rcases hmk : os.MkdirAll env (filepath.Join [localPath, item.Name])
            (fmt.Printf ("Erstelle Verzeichnis: " ++ filepath.Join [localPath, item.Name]
              ++ "\n") s)
          with ⟨_ | cause, s1⟩
        · rw [forItems_dir_recurse env recurse localPath item _ s s1 hfile hdir hmk,
            forItems_dir_recurse env recurse localPath item _ s s1 hfile hdir hmk]
          rcases recurse item.Path (filepath.Join [localPath, item.Name]) s1
            with _ | ⟨err | u, s2⟩
          · rfl
          · rfl
          · exact ih _
        · rw [forItems_dir_mkdir_error env recurse localPath item _ s s1 cause hfile hdir hmk,
            forItems_dir_mkdir_error env recurse localPath item _ s s1 cause hfile hdir hmk]
      · have hrec : ¬ recognised item = true := by simp [recognised, hfile, hdir]
        rw [List.filter_cons_of_neg hrec, forItems_skip env recurse localPath item rest s hfile hdir]
        exact ih s

end Loop

/-- The loop reads the environment for the network and the file system only,
not for the decoding of listings. -/
theorem forItems_dropUnrecognised (env : Env)
    (recurse : String → String → State → Option (Except String Unit × State))
    (localPath : String) (items : List GitHubContent) (s : State) :
    forItems (dropUnrecognised env) recurse localPath items s
      = forItems env recurse localPath items s := by
  induction items generalizing s with
  | nil => rfl
  | cons item rest ih =>
    unfold forItems
    have hfile : ∀ u p t, downloadFile (dropUnrecognised env) u p t = downloadFile env u p t :=
      fun _ _ _ => rfl
    have hmk : ∀ p t, os.MkdirAll (dropUnrecognised env) p t = os.MkdirAll env p t :=
      fun _ _ => rfl
    simp only [hfile, hmk, ih]

/-- A run is the same when every listing has lost its unrecognised entries. -/
theorem downloadFolder_dropUnrecognised (env : Env) (fuel : Nat)
    (owner repo branch path localPath : String) (s : State) :
    downloadFolder (dropUnrecognised env) fuel owner repo branch path localPath s
      = downloadFolder env fuel owner repo branch path localPath s := by
  induction fuel generalizing path localPath s with
  | zero => rfl
  | succ fuel ih =>
    have hrec : downloadFolder (dropUnrecognised env) fuel owner repo branch
        = downloadFolder env fuel owner repo branch := by
      funext p lp t
      exact ih p lp t
    have hget : (dropUnrecognised env).httpGet = env.httpGet := rfl
    unfold downloadFolder
    rw [hget, hrec]
    cases env.httpGet (apiURL owner repo branch path) with
    | failed err => rfl
    | answered statusCode status body =>
      simp only
      split_ifs with hstatus
      · rfl
      · cases hdec : env.jsonDecode body with
        | error err => simp [dropUnrecognised, hdec]
        | ok contents =>
          simp only [dropUnrecognised, hdec]
          rw [← forItems_filter]
          exact forItems_dropUnrecognised env _ localPath contents _

/-- The loop returns what it returned when the recursive call returns more
often. -/
theorem forItems_mono (env : Env)
    (shallow deep : String → String → State → Option (Except String Unit × State))
    (hle : ∀ path localPath s r, shallow path localPath s = some r → deep path localPath s = some r)
    (localPath : String) (items : List GitHubContent) (s : State)
    (r : Except String Unit × State)
    (hr : forItems env shallow localPath items s = some r) :
    forItems env deep localPath items s = some r := by
  induction items generalizing s with
  | nil => exact hr
  | cons item rest ih =>
    by_cases hfile : item.Type_ = "file"
    · rcases hdl : downloadFile env item.DownloadURL (filepath.Join [localPath, item.Name])
          (fmt.Printf ("Herunterladen der Datei: " ++ item.DownloadURL ++ "\n") s)
        with ⟨err | u, s1⟩
      · rw [forItems_file_error env _ localPath item _ s s1 err hfile hdl] at hr ⊢
        exact hr
      · rw [forItems_file_ok env _ localPath item _ s s1 u hfile hdl] at hr ⊢
        exact ih _ hr
    · by_cases hdir : item.Type_ = "dir"
      · rcases hmk : os.MkdirAll env (filepath.Join [localPath, item.Name])
            (fmt.Printf ("Erstelle Verzeichnis: " ++ filepath.Join [localPath, item.Name]
              ++ "\n") s)
          with ⟨_ | cause, s1⟩
        · rw [forItems_dir_recurse env _ localPath item _ s s1 hfile hdir hmk] at hr ⊢
          rcases hrec : shallow item.Path (filepath.Join [localPath, item.Name]) s1
            with _ | ⟨err | u, s2⟩
          · rw [hrec] at hr
            simp at hr
          · rw [hrec] at hr
            rw [hle _ _ _ _ hrec]
            exact hr
          · rw [hrec] at hr
            rw [hle _ _ _ _ hrec]
            exact ih _ hr
        · rw [forItems_dir_mkdir_error env _ localPath item _ s s1 cause hfile hdir hmk] at hr ⊢
          exact hr
      · rw [forItems_skip env _ localPath item _ s hfile hdir] at hr ⊢
        exact ih _ hr

/-- More fuel does not change what a call returns. -/
theorem downloadFolder_fuel_succ (env : Env) (fuel : Nat)
    (owner repo branch path localPath : String) (s : State) (r : Except String Unit × State)
    (hr : downloadFolder env fuel owner repo branch path localPath s = some r) :
    downloadFolder env (fuel + 1) owner repo branch path localPath s = some r := by
  induction fuel generalizing path localPath s r with
  | zero => simp [downloadFolder] at hr
  | succ fuel ih =>
    unfold downloadFolder at hr ⊢
    cases hget : env.httpGet (apiURL owner repo branch path) with
    | failed err =>
      rw [hget] at hr
      exact hr
    | answered statusCode status body =>
      rw [hget] at hr
      simp only at hr ⊢
      split_ifs at hr ⊢ with hstatus
      · exact hr
      · cases hdec : env.jsonDecode body with
        | error err =>
          rw [hdec] at hr
          exact hr
        | ok contents =>
          rw [hdec] at hr
          exact forItems_mono env _ _ (fun p lp t q hq => ih p lp t q hq) localPath contents _ r hr

/-- The call of `downloadFolder` on a listing that is fetched and decoded is
the loop over its entries. -/
theorem downloadFolder_listing (env : Env) (fuel : Nat)
    (owner repo branch path localPath status : String) (body : Bytes)
    (contents : List GitHubContent) (s : State)
    (hget : env.httpGet (apiURL owner repo branch path) = .answered http.StatusOK status body)
    (hdec : env.jsonDecode body = .ok contents) :
    downloadFolder env (fuel + 1) owner repo branch path localPath s
      = forItems env (downloadFolder env fuel owner repo branch) localPath contents
          (s.record (.get (apiURL owner repo branch path))) := by
  simp only [downloadFolder, hget, hdec, ne_eq, not_true_eq_false, if_false]

/-- C4: flattening.  For every listing returned to `downloadFolder` and every
entry of it that the loop reaches (the entries `pre` before it are processed
without error and leave the state `s1`): an entry of type `file` is downloaded
from its `DownloadURL` to `filepath.Join(localPath, Name)`; for an entry of
type `dir` the directory `filepath.Join(localPath, Name)` is made and the
recursive call has the remote path `Path` and the local path
`filepath.Join(localPath, Name)`.  The `Path` of the entry enters no local
destination: a file entry is processed alike whatever its `Path`, and the
local path of an entry does not change with its `Path`. -/
theorem flattening (env : Env) (fuel : Nat) (owner repo branch path localPath status : String)
    (body : Bytes) (pre : List GitHubContent) (item : GitHubContent)
    (rest : List GitHubContent) (s s1 : State)
    (hget : env.httpGet (apiURL owner repo branch path) = .answered http.StatusOK status body)
    (hdec : env.jsonDecode body = .ok (pre ++ item :: rest))
    (hpre : forItems env (downloadFolder env fuel owner repo branch) localPath pre
      (s.record (.get (apiURL owner repo branch path))) = some (.ok (), s1)) :
    (item.Type_ = "file" →
      downloadFolder env (fuel + 1) owner repo branch path localPath s
        = match downloadFile env item.DownloadURL (filepath.Join [localPath, item.Name])
            (fmt.Printf ("Herunterladen der Datei: " ++ item.DownloadURL ++ "\n") s1) with
          | (.error err, s2) => some (.error err, s2)
          | (.ok _, s2) =>
            forItems env (downloadFolder env fuel owner repo branch) localPath rest
              (fmt.Printf ("Datei erfolgreich heruntergeladen: "
                ++ filepath.Join [localPath, item.Name] ++ "\n") s2)) ∧
    (item.Type_ = "dir" →
      downloadFolder env (fuel + 1) owner repo branch path localPath s
        = match os.MkdirAll env (filepath.Join [localPath, item.Name])
            (fmt.Printf ("Erstelle Verzeichnis: " ++ filepath.Join [localPath, item.Name]
              ++ "\n") s1) with
          | (some err, s2) =>
            some (.error ("Fehler beim Erstellen des Verzeichnisses: " ++ err), s2)
          | (none, s2) =>
            match downloadFolder env fuel owner repo branch item.Path
                (filepath.Join [localPath, item.Name]) s2 with
            | none => none
            | some (.error err, s3) => some (.error err, s3)
            | some (.ok _, s3) =>
              forItems env (downloadFolder env fuel owner repo branch) localPath rest s3) ∧
    (item.Type_ = "file" → ∀ otherPath,
      forItems env (downloadFolder env fuel owner repo branch) localPath
          ({ item with Path := otherPath } :: rest) s1
        = forItems env (downloadFolder env fuel owner repo branch) localPath (item :: rest) s1) ∧
    (∀ otherPath,
      filepath.Join [localPath, ({ item with Path := otherPath } : GitHubContent).Name]
        = filepath.Join [localPath, item.Name]) := by
  rw [downloadFolder_listing env fuel owner repo branch path localPath status body _ s hget hdec,
    forItems_append_ok env _ localPath pre (item :: rest) _ s1 hpre]
  refine ⟨?_, ?_, ?_, fun _ => rfl⟩
  · intro hfile
    rw [forItems]
    simp only [if_pos hfile]
  · intro hdir
    have hfile : item.Type_ ≠ "file" := by
      rw [hdir]
      decide
    rw [forItems]
    simp only [if_neg hfile, if_pos hdir]
  · intro hfile otherPath
    rw [forItems, forItems]
    simp only [if_pos hfile]

/-- Witness of C4: the entry named `sub` with path `a/b/sub`, fetched under the
local path `root`, is made and entered as `root/sub`, and the file below it
lands in `root/sub`; `root/a/b/sub` occurs in no call. -/
theorem flattening_witness :
    filepath.Join ["root", subEntry.Name] = "root/sub" ∧
    filepath.Join ["root", subEntry.Path] = "root/a/b/sub" ∧
    downloadFolder nested 2 "acme" "widgets" "main" "a/b" "root" State.initial
      = (match os.MkdirAll nested (filepath.Join ["root", subEntry.Name])
            (fmt.Printf ("Erstelle Verzeichnis: " ++ filepath.Join ["root", subEntry.Name]
              ++ "\n") (State.initial.record (.get (apiURL "acme" "widgets" "main" "a/b")))) with
          | (some err, s2) =>
            some (.error ("Fehler beim Erstellen des Verzeichnisses: " ++ err), s2)
          | (none, s2) =>
            match downloadFolder nested 1 "acme" "widgets" "main" subEntry.Path
                (filepath.Join ["root", subEntry.Name]) s2 with
            | none => none
            | some (.error err, s3) => some (.error err, s3)
            | some (.ok _, s3) =>
              forItems nested (downloadFolder nested 1 "acme" "widgets" "main") "root" [] s3) ∧
    (endState (downloadFolder nested 2 "acme" "widgets" "main" "a/b" "root"
      State.initial)).events
      = [ .get "https://api.github.com/repos/acme/widgets/contents/a/b?ref=main",
          .print "Erstelle Verzeichnis: root/sub\n",
          .mkdirAll "root/sub",
          .get "https://api.github.com/repos/acme/widgets/contents/a/b/sub?ref=main",
          .print "Herunterladen der Datei: https://raw.example/f\n",
          .get "https://raw.example/f",
          .mkdirAll "root/sub",
          .create "root/sub/f.txt",
          .copy "root/sub/f.txt" [102],
          .print "Datei erfolgreich heruntergeladen: root/sub/f.txt\n" ] :=
  ⟨by decide, by decide,
    (flattening nested 1 "acme" "widgets" "main" "a/b" "root" "200 OK" [1] [] subEntry []
      State.initial (State.initial.record (.get (apiURL "acme" "widgets" "main" "a/b")))
      rfl rfl rfl).2.1 rfl,
    by decide⟩

/-- C5 as stated fails for a directory that cannot be made: the error of the
creation is `permission denied`, and `downloadFolder` returns it behind a
prefix, not unchanged. -/
theorem mkdir_error_counterexample :
    (os.MkdirAll lockedDisk (filepath.Join ["root", subEntry.Name])
      (fmt.Printf "Erstelle Verzeichnis: root/sub\n"
        (State.initial.record (.get (apiURL "acme" "widgets" "main" "a/b"))))).1
      = some "permission denied" ∧
    (downloadFolder lockedDisk 2 "acme" "widgets" "main" "a/b" "root" State.initial).map Prod.fst
      = some (.error "Fehler beim Erstellen des Verzeichnisses: permission denied") ∧
    "Fehler beim Erstellen des Verzeichnisses: permission denied" ≠ "permission denied" :=
  ⟨rfl, rfl, by decide⟩

/-- C5, amended: fail-fast.  For every listing processed by `downloadFolder`,
if the entries `pre` before an entry are processed without error, in listing
order, and leave the state `s1`, and the entry fails with `err` in the state
`s2`, then `downloadFolder` returns exactly `err` in the state `s2`, whatever
entries follow: none of them is fetched, created or recursed into.  The error
`err` is the error of `downloadFile` for a file, unchanged; the error of the
recursive call for a directory, unchanged; and for a directory that cannot be
made the error of the creation behind the prefix
`Fehler beim Erstellen des Verzeichnisses: `. -/
theorem fail_fast (env : Env) (fuel : Nat) (owner repo branch path localPath status : String)
    (body : Bytes) (pre : List GitHubContent) (item : GitHubContent)
    (post : List GitHubContent) (s s1 s2 : State) (err : String)
    (hget : env.httpGet (apiURL owner repo branch path) = .answered http.StatusOK status body)
    (hdec : env.jsonDecode body = .ok (pre ++ item :: post))
    (hpre : forItems env (downloadFolder env fuel owner repo branch) localPath pre
      (s.record (.get (apiURL owner repo branch path))) = some (.ok (), s1))
    (hitem : forItems env (downloadFolder env fuel owner repo branch) localPath [item] s1
      = some (.error err, s2)) :
    downloadFolder env (fuel + 1) owner repo branch path localPath s = some (.error err, s2) ∧
    (∀ others, forItems env (downloadFolder env fuel owner repo branch) localPath
      (pre ++ item :: others) (s.record (.get (apiURL owner repo branch path)))
        = some (.error err, s2)) ∧
    ((item.Type_ = "file" ∧
        downloadFile env item.DownloadURL (filepath.Join [localPath, item.Name])
          (fmt.Printf ("Herunterladen der Datei: " ++ item.DownloadURL ++ "\n") s1)
          = (.error err, s2)) ∨
      (item.Type_ = "dir" ∧ ∃ cause,
        os.MkdirAll env (filepath.Join [localPath, item.Name])
          (fmt.Printf ("Erstelle Verzeichnis: " ++ filepath.Join [localPath, item.Name]
            ++ "\n") s1) = (some cause, s2) ∧
        err = "Fehler beim Erstellen des Verzeichnisses: " ++ cause) ∨
      (item.Type_ = "dir" ∧ ∃ made,
        os.MkdirAll env (filepath.Join [localPath, item.Name])
          (fmt.Printf ("Erstelle Verzeichnis: " ++ filepath.Join [localPath, item.Name]
            ++ "\n") s1) = (none, made) ∧
        downloadFolder env fuel owner repo branch item.Path
          (filepath.Join [localPath, item.Name]) made = some (.error err, s2))) := by
  have hall : ∀ others, forItems env (downloadFolder env fuel owner repo branch) localPath
      (pre ++ item :: others) (s.record (.get (apiURL owner repo branch path)))
        = some (.error err, s2) := by
    intro others
    rw [forItems_append_ok env _ localPath pre (item :: others) _ s1 hpre]
    exact forItems_append_error env _ localPath [item] others s1 s2 err hitem
  refine ⟨?_, hall, ?_⟩
  · rw [downloadFolder_listing env fuel owner repo branch path localPath status body _ s hget hdec]
    exact hall post
  · by_cases hfile : item.Type_ = "file"
    · left
      refine ⟨hfile, ?_⟩
      rcases hdl : downloadFile env item.DownloadURL (filepath.Join [localPath, item.Name])
          (fmt.Printf ("Herunterladen der Datei: " ++ item.DownloadURL ++ "\n") s1)
        with ⟨e | u, t⟩
      · rw [forItems_file_error env _ localPath item [] s1 t e hfile hdl] at hitem
        simp only [Option.some.injEq, Prod.mk.injEq, Except.error.injEq] at hitem
        rw [hitem.1, hitem.2]
      · rw [forItems_file_ok env _ localPath item [] s1 t u hfile hdl] at hitem
        simp [forItems] at hitem
    · by_cases hdir : item.Type_ = "dir"
      · right
        rcases hmk : os.MkdirAll env (filepath.Join [localPath, item.Name])
            (fmt.Printf ("Erstelle Verzeichnis: " ++ filepath.Join [localPath, item.Name]
              ++ "\n") s1)
          with ⟨_ | cause, made⟩
        · right
          refine ⟨hdir, made, rfl, ?_⟩
          rw [forItems_dir_recurse env _ localPath item [] s1 made hfile hdir hmk] at hitem
          rcases hrec : downloadFolder env fuel owner repo branch item.Path
              (filepath.Join [localPath, item.Name]) made with _ | ⟨e | u, t⟩
          · rw [hrec] at hitem
            simp at hitem
          · rw [hrec] at hitem
            simp only [Option.some.injEq, Prod.mk.injEq, Except.error.injEq] at hitem
            rw [hitem.1, hitem.2]
          · rw [hrec] at hitem
            simp [forItems] at hitem
        · left
          refine ⟨hdir, cause, ?_⟩
          rw [forItems_dir_mkdir_error env _ localPath item [] s1 made cause hfile hdir hmk]
            at hitem
          simp only [Option.some.injEq, Prod.mk.injEq, Except.error.injEq] at hitem
          rw [← hitem.1, ← hitem.2]
          exact ⟨rfl, rfl⟩
      · rw [forItems_skip env _ localPath item [] s1 hfile hdir] at hitem
        simp [forItems] at hitem

/-- Witness of C5, amended: of three entries the second fails its GET; the
error is that of the second download and the third entry is never fetched. -/
theorem fail_fast_witness :
    (downloadFolder secondMissing 1 "acme" "widgets" "main" "docs" "docs" State.initial).map
        Prod.fst = some (.error "Fehler: HTTP Status 404 Not Found") ∧
    Event.get "https://raw.example/a" ∈
      (endState (downloadFolder secondMissing 1 "acme" "widgets" "main" "docs" "docs"
        State.initial)).events ∧
    Event.get "https://raw.example/b" ∈
      (endState (downloadFolder secondMissing 1 "acme" "widgets" "main" "docs" "docs"
        State.initial)).events ∧
    Event.get "https://raw.example/c" ∉
      (endState (downloadFolder secondMissing 1 "acme" "widgets" "main" "docs" "docs"
        State.initial)).events :=
  have h := (fail_fast secondMissing 0 "acme" "widgets" "main" "docs" "docs" "200 OK" [1]
    (threeEntries.take 1) (threeEntries.getD 1 subEntry) (threeEntries.drop 2) State.initial
    (endState (forItems secondMissing (downloadFolder secondMissing 0 "acme" "widgets" "main")
      "docs" (threeEntries.take 1)
      (State.initial.record (.get (apiURL "acme" "widgets" "main" "docs")))))
    (endState (downloadFolder secondMissing 1 "acme" "widgets" "main" "docs" "docs"
      State.initial))
    "Fehler: HTTP Status 404 Not Found" rfl rfl rfl rfl).1
  ⟨congrArg (Option.map Prod.fst) h, by decide, by decide, by decide⟩

/-- C10: silent skip.  An entry whose type is neither `file` nor `dir` is
passed over: the loop of `downloadFolder` goes on with the entries after it in
the same state, so that nothing is downloaded, made or entered for it and no
error arises from it.  On every listing the loop has the same result and ends
in the same state, calls made included, as on the listing without such
entries, and so has `downloadFolder` when they are removed from every
listing. -/
theorem unrecognised_entries_skipped (env : Env) (fuel : Nat)
    (owner repo branch path localPath : String) (s : State) :
    (∀ item rest, item.Type_ ≠ "file" → item.Type_ ≠ "dir" →
      forItems env (downloadFolder env fuel owner repo branch) localPath (item :: rest) s
        = forItems env (downloadFolder env fuel owner repo branch) localPath rest s) ∧
    (∀ items,
      forItems env (downloadFolder env fuel owner repo branch) localPath items s
        = forItems env (downloadFolder env fuel owner repo branch) localPath
            (items.filter recognised) s) ∧
    downloadFolder env fuel owner repo branch path localPath s
      = downloadFolder (dropUnrecognised env) fuel owner repo branch path localPath s :=
  ⟨fun item rest hfile hdir => forItems_skip env _ localPath item rest s hfile hdir,
    fun items => forItems_filter env _ localPath items s,
    (downloadFolder_dropUnrecognised env fuel owner repo branch path localPath s).symm⟩

/-- Witness of C10: a symbolic link before a directory leaves no trace. -/
theorem unrecognised_entries_skipped_witness :
    forItems nested (downloadFolder nested 1 "acme" "widgets" "main") "root"
        [linkEntry, subEntry] State.initial
      = forItems nested (downloadFolder nested 1 "acme" "widgets" "main") "root"
        [subEntry] State.initial ∧
    (endState (forItems nested (downloadFolder nested 1 "acme" "widgets" "main") "root"
        [linkEntry, subEntry] State.initial)).events
      = [ .print "Erstelle Verzeichnis: root/sub\n",
          .mkdirAll "root/sub",
          .get "https://api.github.com/repos/acme/widgets/contents/a/b/sub?ref=main",
          .print "Herunterladen der Datei: https://raw.example/f\n",
          .get "https://raw.example/f",
          .mkdirAll "root/sub",
          .create "root/sub/f.txt",
          .copy "root/sub/f.txt" [102],
          .print "Datei erfolgreich heruntergeladen: root/sub/f.txt\n" ] :=
  ⟨(unrecognised_entries_skipped nested 1 "acme" "widgets" "main" "a/b" "root"
      State.initial).1 linkEntry [subEntry] (by decide) (by decide),
    by decide⟩

end GetGit
